/-
Verification of the roo-sniffer intercepting proxy (src/roo-sniffer/src).

Shallow embedding of the TypeScript source: JavaScript strings are modelled
as lists of UTF-16 code units (`JSStr := List Nat`), Node `Buffer`s as lists
of bytes (`List Nat`), and `Buffer.prototype.toString('utf8')` as the WHATWG
UTF-8 decoder with replacement characters followed by UTF-16 encoding.
Wall-clock timestamps are omitted from the record model; they are opaque to
every property considered here.
-/
import Mathlib

set_option maxRecDepth 4000

/-- A JavaScript string: a list of UTF-16 code units. -/
abbrev JSStr := List Nat

/-- Embed a Lean string literal as a JS string (all literals used are BMP). -/
def jstr (s : String) : JSStr := s.data.map Char.toNat

/-- Test `listStartsWith pat s`: `pat` occurs at the head of `s`. -/
def listStartsWith : JSStr → JSStr → Bool
  | [], _ => true
  | _ :: _, [] => false
  | a :: as, b :: bs => a == b && listStartsWith as bs

/-- JS `String.prototype.indexOf` for a pattern string: index of the first
occurrence, `none` when the JS call would return `-1`. -/
def indexOfSeq : JSStr → JSStr → Option Nat
  | [], pat => if listStartsWith pat [] then some 0 else none
  | a :: t, pat =>
    if listStartsWith pat (a :: t) then some 0
    else (indexOfSeq t pat).map (· + 1)

/-- JS `String.prototype.includes` (used by the watch matcher as
`host.includes(domain)`). -/
def jsIncludes (s sub : JSStr) : Bool := (indexOfSeq s sub).isSome

/-- JS `String.prototype.split` with a non-empty string separator, fuel-driven;
the fuel passed by `splitOnSeq` always suffices. -/
def splitOnSeqAux (sep : JSStr) : Nat → JSStr → List JSStr
  | 0, s => [s]
  | fuel + 1, s =>
    match indexOfSeq s sep with
    | none => [s]
    | some i => s.take i :: splitOnSeqAux sep fuel (s.drop (i + sep.length))

/-- JS `String.prototype.split` with a non-empty string separator. -/
def splitOnSeq (sep s : JSStr) : List JSStr := splitOnSeqAux sep (s.length + 1) s

/-- The ECMAScript `WhiteSpace`/`LineTerminator` code points trimmed by
`String.prototype.trim`. -/
def isJsWhitespace (c : Nat) : Bool :=
  c ∈ [0x09, 0x0A, 0x0B, 0x0C, 0x0D, 0x20, 0xA0, 0x1680, 0x2000, 0x2001,
       0x2002, 0x2003, 0x2004, 0x2005, 0x2006, 0x2007, 0x2008, 0x2009,
       0x200A, 0x2028, 0x2029, 0x202F, 0x205F, 0x3000, 0xFEFF]

/-- JS `String.prototype.trim`. -/
def jsTrim (s : JSStr) : JSStr :=
  ((s.dropWhile isJsWhitespace).reverse.dropWhile isJsWhitespace).reverse

/-- JS `String.prototype.toLowerCase`, on the ASCII range (the only case-bearing
code points appearing in this development). -/
def jsToLowerCase (s : JSStr) : JSStr :=
  s.map (fun c => if 65 ≤ c && c ≤ 90 then c + 32 else c)

/-- JS `parseInt(s, 10)`: skip leading whitespace, optional sign, then a maximal
run of decimal digits; `none` models `NaN`. -/
def jsParseInt (s : JSStr) : Option Int :=
  let t := s.dropWhile isJsWhitespace
  let signed : Bool × JSStr :=
    match t with
    | 45 :: r => (true, r)
    | 43 :: r => (false, r)
    | _ => (false, t)
  let digits := signed.2.takeWhile (fun c => 48 ≤ c && c ≤ 57)
  if digits.isEmpty then none
  else
    let n : Nat := digits.foldl (fun acc c => acc * 10 + (c - 48)) 0
    some (if signed.1 then -(n : Int) else (n : Int))

/-- The JS idiom `v || d` on an optional string: `undefined` and the empty
string are falsy. -/
def jsOrStr (v : Option JSStr) (d : JSStr) : JSStr :=
  match v with
  | none => d
  | some s => if s.isEmpty then d else s

/-- The JS idiom `v || d` on a number: `NaN` (modelled `none`) and `0` are
falsy. -/
def jsOrNum (v : Option Int) (d : Int) : Int :=
  match v with
  | none => d
  | some n => if n = 0 then d else n

/-- Assignment `m[k] = v` on a plain-object map, last write wins. -/
def assocSet (m : List (JSStr × JSStr)) (k v : JSStr) : List (JSStr × JSStr) :=
  (k, v) :: m.filter (fun p => ¬ p.1 = k)

/-- Property lookup `m[k]` on a plain-object map. -/
def assocGet (m : List (JSStr × JSStr)) (k : JSStr) : Option JSStr :=
  (m.find? (fun p => p.1 = k)).map (·.2)

/-- Clamp an index the way `Buffer.prototype.slice` (subarray) does:
negative indices count from the end, then clamp into `[0, len]`. -/
def clampIdx (len : Nat) (i : Int) : Nat :=
  if i < 0 then ((len : Int) + i).toNat else min i.toNat len

/-- JS `Buffer.prototype.slice(s, e)`. -/
def jsBufSlice (l : List Nat) (s e : Int) : List Nat :=
  let a := clampIdx l.length s
  let b := clampIdx l.length e
  (l.drop a).take (b - a)

/-- JS `Buffer.prototype.slice(s)` (to the end of the buffer). -/
def jsBufSliceFrom (l : List Nat) (s : Int) : List Nat :=
  jsBufSlice l s (l.length : Int)

/-- Decimal rendering of a non-negative integer (for template literals). -/
def natToDec (n : Nat) : JSStr := (Nat.toDigits 10 n).map Char.toNat

/-- Decimal rendering of an integer. -/
def intToJsStr (n : Int) : JSStr :=
  if n < 0 then 45 :: natToDec (-n).toNat else natToDec n.toNat

/-- WHATWG UTF-8 decode to code points, invalid sequences replaced by
`U+FFFD` (the semantics of `Buffer.prototype.toString('utf8')`).
Fuel-driven so the kernel can evaluate it; every step consumes at least one
byte and one unit of fuel, so fuel equal to the byte count always
suffices (see `utf8Decode`). -/
def utf8DecodeF : Nat → List Nat → List Nat
  | _, [] => []
  | 0, _ :: _ => []
  | fuel + 1, b :: rest =>
    if b ≤ 0x7F then b :: utf8DecodeF fuel rest
    else if 0xC2 ≤ b && b ≤ 0xDF then
      match rest with
      | [] => [0xFFFD]
      | c1 :: r1 =>
        if 0x80 ≤ c1 && c1 ≤ 0xBF then
          ((b - 0xC0) * 64 + (c1 - 0x80)) :: utf8DecodeF fuel r1
        else 0xFFFD :: utf8DecodeF fuel (c1 :: r1)
    else if 0xE0 ≤ b && b ≤ 0xEF then
      match rest with
      | [] => [0xFFFD]
      | c1 :: r1 =>
        if (if b = 0xE0 then 0xA0 else 0x80) ≤ c1 && c1 ≤ (if b = 0xED then 0x9F else 0xBF) then
          match r1 with
          | [] => [0xFFFD]
          | c2 :: r2 =>
            if 0x80 ≤ c2 && c2 ≤ 0xBF then
              ((b - 0xE0) * 4096 + (c1 - 0x80) * 64 + (c2 - 0x80)) :: utf8DecodeF fuel r2
            else 0xFFFD :: utf8DecodeF fuel (c2 :: r2)
        else 0xFFFD :: utf8DecodeF fuel (c1 :: r1)
    else if 0xF0 ≤ b && b ≤ 0xF4 then
      match rest with
      | [] => [0xFFFD]
      | c1 :: r1 =>
        if (if b = 0xF0 then 0x90 else 0x80) ≤ c1 && c1 ≤ (if b = 0xF4 then 0x8F else 0xBF) then
          match r1 with
          | [] => [0xFFFD]
          | c2 :: r2 =>
            if 0x80 ≤ c2 && c2 ≤ 0xBF then
              match r2 with
              | [] => [0xFFFD]
              | c3 :: r3 =>
                if 0x80 ≤ c3 && c3 ≤ 0xBF then
                  ((b - 0xF0) * 262144 + (c1 - 0x80) * 4096 + (c2 - 0x80) * 64 + (c3 - 0x80))
                    :: utf8DecodeF fuel r3
                else 0xFFFD :: utf8DecodeF fuel (c3 :: r3)
            else 0xFFFD :: utf8DecodeF fuel (c2 :: r2)
        else 0xFFFD :: utf8DecodeF fuel (c1 :: r1)
    else 0xFFFD :: utf8DecodeF fuel rest

/-- WHATWG UTF-8 decode of a whole buffer. -/
def utf8Decode (l : List Nat) : List Nat := utf8DecodeF l.length l

/-- Encode code points as UTF-16 code units (JS string representation). -/
def toUtf16 : List Nat → List Nat
  | [] => []
  | c :: r =>
    if c < 0x10000 then c :: toUtf16 r
    else (0xD800 + (c - 0x10000) / 0x400) :: (0xDC00 + (c - 0x10000) % 0x400) :: toUtf16 r

/-- Model of `buf.toString('utf8')`: the JS string obtained from a byte buffer. -/
def bufToStr (b : List Nat) : JSStr := toUtf16 (utf8Decode b)

/-! ## Data model (src/roo-sniffer/src/types.ts) -/

/-- Record type `RequestLogEntry` from types.ts. The `timestamp` field (wall clock) is
omitted; no property here depends on it. -/
structure RequestLogEntry where
  method : JSStr
  host : JSStr
  path : JSStr
  watched : Bool
  bodyPreview : Option JSStr := none
  headers : Option (List (JSStr × JSStr)) := none
  statusCode : Option Int := none
  responsePreview : Option JSStr := none
deriving DecidableEq, Repr

/-- Default watch list `DEFAULT_CONFIG.watchDomains` from types.ts. -/
def defaultWatchDomains : List JSStr :=
  [jstr "anthropic", jstr "openai", jstr "api.roo", jstr "amazonaws", jstr "azure"]

/-! ## Proxy (src/roo-sniffer/src/proxy.ts) -/

/-- Watch matcher `ProxyServer.isWatchedDomain` (proxy.ts:32-34):
`this.config.watchDomains.some(domain => host.includes(domain))`. -/
def isWatchedDomain (watchDomains : List JSStr) (host : JSStr) : Bool :=
  watchDomains.any (fun domain => jsIncludes host domain)

/-- The body-preview expression shared by `handleRequest` (proxy.ts:63-66)
and `interceptHttps` (proxy.ts:282-285):
`bodyText.length > 500 ? bodyText.substring(0, 500) + '...' : bodyText`
applied to `body.toString('utf8')`. -/
def jsBodyPreview (body : List Nat) : JSStr :=
  let bodyText := bufToStr body
  if 500 < bodyText.length then bodyText.take 500 ++ jstr "..." else bodyText

/-- What the plain-HTTP forwarder does after logging: forward upstream, or
answer `400 Bad Request` and end the response (proxy.ts:87-91). -/
inductive PlainAction where
  | forward
  | respond400
deriving DecidableEq, Repr

/-- The `end` handler of `ProxyServer.handleRequest` (proxy.ts:49-145),
up to the point where the upstream request is issued.  Inputs mirror what
the handler reads: `clientReq.method/url/headers.host`, the concatenated
body chunks, the configuration, and the prefix of request headers used in
verbose mode.  `parseOk` abstracts WHATWG `new URL` success.  Returns the
list of `RequestLogEntry`s emitted to the logger/subscribers (in order) and
the action taken on the client response. -/
def handleRequestEnd (parseOk : JSStr → Bool) (watchDomains : List JSStr)
    (verbose : Bool) (reqHeaders : List (JSStr × JSStr))
    (methodOpt urlOpt hostOpt : Option JSStr) (body : List Nat) :
    List RequestLogEntry × PlainAction :=
  let url := jsOrStr urlOpt (jstr "/")
  let host := jsOrStr hostOpt (jstr "unknown")
  let method := jsOrStr methodOpt (jstr "GET")
  let isWatched := isWatchedDomain watchDomains host
  let entry : RequestLogEntry :=
    { method := method, host := host, path := url, watched := isWatched,
      bodyPreview :=
        if isWatched && [jstr "POST", jstr "PUT", jstr "PATCH"].contains method
            && decide (0 < body.length)
        then some (jsBodyPreview body) else none,
      headers := if verbose then some reqHeaders else none }
  -- proxy.ts:76-77: the entry is logged and handed to subscribers here,
  -- before the target URL is parsed.
  let emitted := [entry]
  let action :=
    if listStartsWith (jstr "http://") url || listStartsWith (jstr "https://") url then
      if parseOk url then PlainAction.forward else PlainAction.respond400
    else
      if parseOk (jstr "http://" ++ host ++ url) then PlainAction.forward
      else PlainAction.respond400
  (emitted, action)

/-- The CONNECT record built by `ProxyServer.handleConnect` (proxy.ts:148-166):
`const [hostname, portStr] = (req.url || '').split(':')` and
`parseInt(portStr, 10) || 443`. -/
def connectEntry (watchDomains : List JSStr) (urlOpt : Option JSStr) : RequestLogEntry :=
  let u := match urlOpt with | none => [] | some s => s
  let parts := splitOnSeq [58] u
  let hostname := parts.headD []
  let port : Int :=
    jsOrNum (match parts.get? 1 with
             | none => none      -- parseInt(undefined) is NaN
             | some p => jsParseInt p) 443
  { method := jstr "CONNECT", host := hostname,
    path := 58 :: intToJsStr port,
    watched := isWatchedDomain watchDomains hostname }

/-- One `'data'` event of the client-side TLS socket inside
`ProxyServer.interceptHttps` (proxy.ts:235-306).  Takes the retained
`clientBuffer` and the incoming `chunk` (both byte lists); returns the new
`clientBuffer`, the records emitted during this event, and the bytes
written to the upstream connection during this event. -/
def interceptDataEvent (verbose : Bool) (hostname : JSStr)
    (buffer chunk : List Nat) : List Nat × List RequestLogEntry × List Nat :=
  let clientBuffer := buffer ++ chunk
  let requestStr := bufToStr clientBuffer
  match indexOfSeq requestStr (jstr "\r\n\r\n") with
  | none => (clientBuffer, [], chunk)
  | some headerEnd =>
    let headerPart := requestStr.take headerEnd
    let lines := splitOnSeq [13, 10] headerPart
    if 0 < lines.length then
      let requestLine := splitOnSeq [32] (lines.headD [])
      let method := jsOrStr (requestLine.get? 0) (jstr "UNKNOWN")
      let path := jsOrStr (requestLine.get? 1) (jstr "/")
      let headers := lines.tail.foldl
        (fun hs line =>
          match indexOfSeq line [58] with
          | none => hs
          | some colonIdx =>
            assocSet hs (jsToLowerCase (jsTrim (line.take colonIdx)))
                        (jsTrim (line.drop (colonIdx + 1)))) []
      let contentLength := jsParseInt (jsOrStr (assocGet headers (jstr "content-length")) (jstr "0"))
      let bodyStart : Nat := headerEnd + 4
      let currentBodyLength : Int := (clientBuffer.length : Int) - (bodyStart : Int)
      match contentLength with
      | none => (clientBuffer, [], chunk)  -- `x >= NaN` is false: wait for more data
      | some cl =>
        if cl ≤ currentBodyLength then
          let body := jsBufSlice clientBuffer (bodyStart : Int) ((bodyStart : Int) + cl)
          let entry : RequestLogEntry :=
            { method := method, host := hostname, path := path, watched := true,
              bodyPreview :=
                if [jstr "POST", jstr "PUT", jstr "PATCH"].contains method
                    && decide (0 < body.length)
                then some (jsBodyPreview body) else none,
              headers := if verbose then some headers else none }
          (jsBufSliceFrom clientBuffer ((bodyStart : Int) + cl), [entry], chunk)
        else (clientBuffer, [], chunk)
    else (clientBuffer, [], chunk)

/-- A whole MITM interception run over a sequence of TLS reads
(proxy.ts:201-306).  `head` is the third argument Node passes to the
`'connect'` handler; `interceptHttps` receives it and never uses it.
Returns the records emitted (in order) and the bytes written upstream. -/
def interceptRun (verbose : Bool) (hostname : JSStr) (head : List Nat)
    (chunks : List (List Nat)) : List RequestLogEntry × List Nat :=
  let r := chunks.foldl
    (fun acc chunk =>
      let e := interceptDataEvent verbose hostname acc.1 chunk
      (e.1, acc.2.1 ++ e.2.1, acc.2.2 ++ e.2.2))
    (([] : List Nat), ([] : List RequestLogEntry), ([] : List Nat))
  (r.2.1, r.2.2)

/-- Bytes the opaque tunnel writes to the upstream
(`ProxyServer.tunnelHttps`, proxy.ts:183-188): `head` first, then every
client chunk in order. -/
def tunnelUpstreamBytes (head : List Nat) (chunks : List (List Nat)) : List Nat :=
  head ++ chunks.flatten

/-! ## Certificates (src/roo-sniffer/src/certs.ts)

node-forge is embedded symbolically: an RSA key pair is a pair of key
identifiers produced together by `forge.pki.rsa.generateKeyPair` (modelled
by a seed), `cert.sign(k)` records the signing private key, and a signature
verifies against an issuer certificate exactly when the recorded private
key is the counterpart of the issuer certificate's public key. -/

/-- One `{ name, value }` attribute as passed to `setSubject`/`setIssuer`. -/
structure ForgeAttr where
  name : String
  value : String
deriving DecidableEq, Repr

/-- A symbolic RSA key pair: both halves carry the generation seed, so a
private key `k` is the counterpart of the public key `k`. -/
structure KeyPair where
  publicKey : Nat
  privateKey : Nat
deriving DecidableEq, Repr

/-- Model of `forge.pki.rsa.generateKeyPair(2048)`, keyed by a generation seed. -/
def rsaGenerateKeyPair (seed : Nat) : KeyPair := ⟨seed, seed⟩

/-- The fields of a forge certificate that certs.ts sets. -/
structure ForgeCert where
  publicKey : Nat
  serialNumber : String
  validityYears : Nat
  subject : List ForgeAttr
  issuer : List ForgeAttr
  basicConstraintsCA : Option Bool
  keyUsage : List String
  extKeyUsageServerAuth : Bool
  subjectAltName : List (Nat × String)
  signedBy : Option Nat
deriving DecidableEq, Repr

/-- Signature check `cert.verify(issuerCert)` in the symbolic model: the signature was made
with the private counterpart of the issuer certificate's public key. -/
def certVerifies (c issuerCert : ForgeCert) : Bool :=
  c.signedBy = some issuerCert.publicKey

/-- First attribute value with the given name (forge `getField`-style). -/
def attrValue (attrs : List ForgeAttr) (n : String) : Option String :=
  (attrs.find? (fun a => a.name = n)).map (·.value)

/-- The CA subject/issuer attributes (certs.ts:55-59). -/
def caAttrs : List ForgeAttr :=
  [⟨"commonName", "Roo Sniffer CA"⟩, ⟨"organizationName", "Roo Sniffer"⟩,
   ⟨"countryName", "US"⟩]

/-- In-memory CA material held by `CertificateManager` after start-up. -/
structure CAState where
  caCert : ForgeCert
  caKey : Nat
deriving DecidableEq, Repr

/-- Model of `CertificateManager.generateCA` (certs.ts:45-91), minus the file writes:
the self-signed root built from a fresh key pair. -/
def generateCACert (keys : KeyPair) : ForgeCert :=
  { publicKey := keys.publicKey
    serialNumber := "01"
    validityYears := 10
    subject := caAttrs
    issuer := caAttrs
    basicConstraintsCA := some true
    keyUsage := ["keyCertSign", "digitalSignature", "cRLSign"]
    extKeyUsageServerAuth := false
    subjectAltName := []
    signedBy := some keys.privateKey }

/-- The CA state `generateCA` leaves behind (certs.ts:82-83). -/
def generateCAState (seed : Nat) : CAState :=
  let keys := rsaGenerateKeyPair seed
  ⟨generateCACert keys, keys.privateKey⟩

/-- Model of `CertificateManager.generateHostCertificate` (certs.ts:106-156).
`keys` is the freshly generated 2048-bit pair, `now` the wall clock used
for the serial number. -/
def generateHostCertificate (st : CAState) (keys : KeyPair) (now : Nat)
    (hostname : String) : ForgeCert :=
  { publicKey := keys.publicKey
    serialNumber := String.mk (Nat.toDigits 16 now)
    validityYears := 1
    subject := [⟨"commonName", hostname⟩, ⟨"organizationName", "Roo Sniffer"⟩]
    issuer := st.caCert.subject
    basicConstraintsCA := some false
    keyUsage := ["digitalSignature", "keyEncipherment"]
    extKeyUsageServerAuth := true
    subjectAltName := [(2, hostname)]
    signedBy := some st.caKey }

/-- Model of `CertificateManager.getCertificateForHost` (certs.ts:93-104): consult the
cache, else generate, cache and return.  The cache is the `certCache` map;
`keys`/`now` feed the generation performed on a miss. -/
def getCertificateForHost (st : CAState) (cache : List (String × ForgeCert))
    (keys : KeyPair) (now : Nat) (hostname : String) :
    ForgeCert × List (String × ForgeCert) :=
  match cache.lookup hostname with
  | some cached => (cached, cache)
  | none =>
    let c := generateHostCertificate st keys now hostname
    (c, (hostname, c) :: cache)

/-! File-system model for `loadOrCreateCA`. -/

/-- Contents of a file in `cert_dir`: PEM text of a certificate or of a
private key (PEM serialization is modelled as injective). -/
inductive FileData where
  | pemCert (c : ForgeCert)
  | pemKey (k : Nat)
deriving DecidableEq, Repr

/-- A file system: an association of paths to contents; writes shadow. -/
def FS := List (String × FileData)

/-- Node `fs.existsSync`. -/
def fsExists (fs : FS) (p : String) : Bool := (List.lookup p fs).isSome

/-- Node `fs.readFileSync` (as `Option`; the call throws when the file is gone). -/
def fsRead (fs : FS) (p : String) : Option FileData := List.lookup p fs

/-- Node `fs.writeFileSync`. -/
def fsWrite (fs : FS) (p : String) (d : FileData) : FS := (p, d) :: fs

/-- Model of `forge.pki.certificateFromPem`; `none` models the thrown parse error. -/
def certificateFromPem : FileData → Option ForgeCert
  | .pemCert c => some c
  | .pemKey _ => none

/-- Model of `forge.pki.privateKeyFromPem`; `none` models the thrown parse error. -/
def privateKeyFromPem : FileData → Option Nat
  | .pemCert _ => none
  | .pemKey k => some k

/-- Model of `CertificateManager.loadOrCreateCA` (certs.ts:26-43) together with the
persistence performed by `generateCA` (certs.ts:85-90).  `fresh` is the CA
material generated on the miss path.  Returns the resulting in-memory state
(`none` models an exception escaping the constructor) and the file system
after the call. -/
def loadOrCreateCA (fresh : CAState) (fs : FS) (certDir : String) :
    Option CAState × FS :=
  let caCertPath := certDir ++ "/roo-sniffer-ca.pem"
  let caKeyPath := certDir ++ "/roo-sniffer-ca-key.pem"
  if fsExists fs caCertPath && fsExists fs caKeyPath then
    match fsRead fs caCertPath, fsRead fs caKeyPath with
    | some certPem, some keyPem =>
      match certificateFromPem certPem, privateKeyFromPem keyPem with
      | some c, some k => (some ⟨c, k⟩, fs)
      | _, _ => (none, fs)
    | _, _ => (none, fs)
  else
    (some fresh,
     fsWrite (fsWrite fs caCertPath (.pemCert fresh.caCert))
       caKeyPath (.pemKey fresh.caKey))

/-! ## Concrete inputs used by counterexamples and witnesses -/

/-- A single TLS read carrying two pipelined zero-body requests. -/
def pipelinedChunk : List Nat :=
  jstr "GET /a HTTP/1.1\r\nContent-Length:0\r\n\r\nGET /b HTTP/1.1\r\nContent-Length:0\r\n\r\n"

/-- A third request arriving in a later TLS read. -/
def thirdReqChunk : List Nat := jstr "GET /c HTTP/1.1\r\nContent-Length:0\r\n\r\n"

/-- A POST whose 2-byte body is the UTF-8 encoding of U+00E9. -/
def latin1PostChunk : List Nat :=
  jstr "POST /p HTTP/1.1\r\nContent-Length: 2\r\n\r\n" ++ [0xC3, 0xA9]

/-- A POST whose body is the literal ASCII text of the decode-failure marker. -/
def binaryBodyChunk : List Nat :=
  jstr "POST /p HTTP/1.1\r\nContent-Length: 8\r\n\r\n<binary>"

/-- A URL-parse model that fails exactly on strings containing a space
(a space in the authority is a forbidden host code point for WHATWG URL). -/
def spaceFreeUrlOk : JSStr → Bool := fun s => !(s.contains 32)

/-- The leaf-certificate contract of claim C6 against a CA state: subject CN
and DNS SAN equal to the hostname, `cA=false`, extended key usage
`serverAuth`, issuer equal to the root subject, and a signature that
verifies against the root certificate. -/
def leafRespects (st : CAState) (h : String) (c : ForgeCert) : Prop :=
  attrValue c.subject "commonName" = some h ∧
  (2, h) ∈ c.subjectAltName ∧
  c.basicConstraintsCA = some false ∧
  c.extKeyUsageServerAuth = true ∧
  c.issuer = st.caCert.subject ∧
  certVerifies c st.caCert = true

/-- A two-file certificate directory for the C7 witness. -/
def c7TestFS : FS :=
  [("d/roo-sniffer-ca.pem", FileData.pemCert (generateCAState 0).caCert),
   ("d/roo-sniffer-ca-key.pem", FileData.pemKey 0)]

/-! ## Generic lemmas about the JS-string machinery -/

theorem listStartsWith_iff (pat s : JSStr) :
    listStartsWith pat s = true ↔ ∃ t, s = pat ++ t := by
  induction pat generalizing s with
  | nil => simp [listStartsWith]
  | cons a as ih =>
    cases s with
    | nil => simp [listStartsWith]
    | cons b bs =>
      simp only [listStartsWith, Bool.and_eq_true, beq_iff_eq, ih, List.cons_append]
      constructor
      · rintro ⟨rfl, t, rfl⟩
        exact ⟨t, rfl⟩
      · rintro ⟨t, ht⟩
        injection ht with h1 h2
        exact ⟨h1.symm, t, h2⟩

theorem jsIncludes_iff (s sub : JSStr) :
    jsIncludes s sub = true ↔ ∃ p q, s = p ++ sub ++ q := by
  induction s with
  | nil =>
    simp only [jsIncludes, indexOfSeq]
    constructor
    · intro h
      by_cases hp : listStartsWith sub [] = true
      · rcases (listStartsWith_iff sub []).mp hp with ⟨t, ht⟩
        exact ⟨[], t, ht⟩
      · simp [hp] at h
    · rintro ⟨p, q, hpq⟩
      have hp : p = [] := by cases p <;> simp_all
      subst hp
      have hs : sub = [] := by cases sub <;> simp_all
      subst hs
      simp [listStartsWith]
  | cons a t ih =>
    simp only [jsIncludes, indexOfSeq]
    by_cases hp : listStartsWith sub (a :: t) = true
    · rcases (listStartsWith_iff sub (a :: t)).mp hp with ⟨u, hu⟩
      simp only [hp, if_true, Option.isSome_some, true_iff]
      exact ⟨[], u, by simpa using hu⟩
    · rw [if_neg hp]
      have hm : (Option.map (fun x => x + 1) (indexOfSeq t sub)).isSome
          = (indexOfSeq t sub).isSome := by
        cases indexOfSeq t sub <;> rfl
      rw [hm, show (indexOfSeq t sub).isSome = jsIncludes t sub from rfl, ih]
      constructor
      · rintro ⟨p, q, rfl⟩
        exact ⟨a :: p, q, rfl⟩
      · rintro ⟨p, q, hpq⟩
        cases p with
        | nil =>
          exfalso
          apply hp
          rw [listStartsWith_iff]
          exact ⟨q, by simpa using hpq⟩
        | cons x xs =>
          injection hpq with h1 h2
          exact ⟨xs, q, h2⟩

theorem utf8DecodeF_ascii_cons (k b : Nat) (r : List Nat) (h : b ≤ 127) :
    utf8DecodeF (k + 1) (b :: r) = b :: utf8DecodeF k r := by
  simp [utf8DecodeF, h]

theorem utf8DecodeF_ascii_append (p : List Nat) (n : Nat) (r : List Nat)
    (hp : ∀ x ∈ p, x ≤ 127) :
    utf8DecodeF (p.length + n) (p ++ r) = p ++ utf8DecodeF n r := by
  induction p with
  | nil => simp
  | cons a t ih =>
    have ha : a ≤ 127 := hp a (by simp)
    have ht : ∀ x ∈ t, x ≤ 127 := fun x hx => hp x (by simp [hx])
    have hlen : (a :: t).length + n = (t.length + n) + 1 := by
      simp [List.length_cons]; omega
    rw [hlen, List.cons_append, utf8DecodeF_ascii_cons _ _ _ ha, ih ht]
    rfl

theorem utf8Decode_ascii_append (p r : List Nat) (hp : ∀ x ∈ p, x ≤ 127) :
    utf8Decode (p ++ r) = p ++ utf8Decode r := by
  unfold utf8Decode
  rw [List.length_append, utf8DecodeF_ascii_append p r.length r hp]

theorem utf8Decode_ascii (l : List Nat) (h : ∀ x ∈ l, x ≤ 127) :
    utf8Decode l = l := by
  have := utf8Decode_ascii_append l [] h
  simpa [utf8Decode, utf8DecodeF] using this

theorem toUtf16_bmp (l : List Nat) (h : ∀ x ∈ l, x < 0x10000) :
    toUtf16 l = l := by
  induction l with
  | nil => rfl
  | cons a t ih =>
    have ha : a < 0x10000 := h a (by simp)
    have ht : ∀ x ∈ t, x < 0x10000 := fun x hx => h x (by simp [hx])
    simp [toUtf16, ha, ih ht]

theorem toUtf16_append (a b : List Nat) :
    toUtf16 (a ++ b) = toUtf16 a ++ toUtf16 b := by
  induction a with
  | nil => rfl
  | cons x t ih =>
    by_cases hx : x < 0x10000 <;> simp [toUtf16, hx, ih]

theorem bufToStr_ascii (l : List Nat) (h : ∀ x ∈ l, x ≤ 127) :
    bufToStr l = l := by
  unfold bufToStr
  rw [utf8Decode_ascii l h, toUtf16_bmp l (fun x hx => lt_of_le_of_lt (h x hx) (by norm_num))]

theorem bufToStr_ascii_append (p r : List Nat) (hp : ∀ x ∈ p, x ≤ 127) :
    bufToStr (p ++ r) = p ++ bufToStr r := by
  unfold bufToStr
  rw [utf8Decode_ascii_append p r hp, toUtf16_append,
    toUtf16_bmp p (fun x hx => lt_of_le_of_lt (hp x hx) (by norm_num))]

theorem listStartsWith_append (p t : JSStr) : listStartsWith p (p ++ t) = true := by
  induction p with
  | nil => rfl
  | cons a as ih => simp [listStartsWith, ih]

theorem indexOfSeq_cons (a : Nat) (t pat : JSStr) :
    indexOfSeq (a :: t) pat =
      if listStartsWith pat (a :: t) then some 0
      else (indexOfSeq t pat).map (· + 1) := rfl

theorem indexOfSeq_append_cons_self (h r : JSStr) (hh : (58 : Nat) ∉ h) :
    indexOfSeq (h ++ 58 :: r) [58] = some h.length := by
  induction h with
  | nil =>
    simp [indexOfSeq, listStartsWith]
  | cons a t ih =>
    have ha : a ≠ 58 := by intro hc; exact hh (by simp [hc])
    have ht : (58 : Nat) ∉ t := fun hc => hh (by simp [hc])
    have hsw : listStartsWith [58] (a :: (t ++ 58 :: r)) = false := by
      simp [listStartsWith]
      omega
    rw [List.cons_append, indexOfSeq_cons, hsw]
    simp [ih ht, List.length_cons]

theorem splitOnSeq_colon_head (h r : JSStr) (hh : (58 : Nat) ∉ h) :
    (splitOnSeq [58] (h ++ 58 :: r)).headD [] = h := by
  unfold splitOnSeq
  rw [show (h ++ 58 :: r).length + 1 = ((h ++ 58 :: r).length) + 1 from rfl]
  rw [splitOnSeqAux]
  rw [indexOfSeq_append_cons_self h r hh]
  simp [List.take_left]

theorem interceptDataEvent_entries_le_one (v : Bool) (hn : JSStr) (buf chunk : List Nat) :
    (interceptDataEvent v hn buf chunk).2.1.length ≤ 1 := by
  unfold interceptDataEvent
  dsimp only
  (repeat' split) <;> simp

theorem interceptDataEvent_upstream (v : Bool) (hn : JSStr) (buf chunk : List Nat) :
    (interceptDataEvent v hn buf chunk).2.2 = chunk := by
  unfold interceptDataEvent
  dsimp only
  (repeat' split) <;> simp

theorem interceptRun_upstream_aux (v : Bool) (hn : JSStr) (chunks : List (List Nat))
    (buf : List Nat) (es : List RequestLogEntry) (up : List Nat) :
    (chunks.foldl
      (fun acc chunk =>
        let e := interceptDataEvent v hn acc.1 chunk
        (e.1, acc.2.1 ++ e.2.1, acc.2.2 ++ e.2.2))
      (buf, es, up)).2.2 = up ++ chunks.flatten := by
  induction chunks generalizing buf es up with
  | nil => simp
  | cons c cs ih =>
    simp only [List.foldl_cons, List.flatten_cons]
    rw [ih]
    rw [interceptDataEvent_upstream]
    simp [List.append_assoc]

theorem lookup_mem {l : List (String × ForgeCert)} {k : String} {v : ForgeCert}
    (h : List.lookup k l = some v) : (k, v) ∈ l := by
  induction l with
  | nil => simp [List.lookup] at h
  | cons p t ih =>
    obtain ⟨a, b⟩ := p
    rw [List.lookup_cons] at h
    by_cases hk : k == a
    · rw [hk] at h
      have ha : k = a := by simpa using hk
      have hb : b = v := by simpa using h
      subst ha; subst hb
      exact List.mem_cons_self _ _
    · rw [show (k == a) = false from by simpa using hk] at h
      exact List.mem_cons_of_mem _ (ih h)

/-! ## Claim C1 -/

/-- C1 counterexample: with watch list `["anthropic"]` and host
`"API.ANTHROPIC.COM"`, the matcher returns `false` although `"anthropic"`
is a substring of the lowercased hostname — the claimed iff fails because
`isWatchedDomain` never lowercases its input. -/
theorem C1_counterexample :
    isWatchedDomain [jstr "anthropic"] (jstr "API.ANTHROPIC.COM") = false ∧
    jsIncludes (jsToLowerCase (jstr "API.ANTHROPIC.COM")) (jstr "anthropic") = true := by
  exact ⟨rfl, rfl⟩

/-- C1 (amended): the watch matcher returns `true` iff some element of
`watch_domains` is a substring of the hostname exactly as given — matching
is case-sensitive, with no lowercasing. -/
theorem C1_watch_matcher_case_sensitive (watchDomains : List JSStr) (host : JSStr) :
    isWatchedDomain watchDomains host = true ↔
      ∃ d ∈ watchDomains, ∃ p q, host = p ++ d ++ q := by
  unfold isWatchedDomain
  rw [List.any_eq_true]
  simp only [jsIncludes_iff]

/-! ## Claim C2 -/

/-- C2 counterexample: a watched POST with a UTF-8 body of byte length
`L = 2` (`0xC3 0xA9`, one two-byte character) is emitted with a
`bodyPreview` of length 1, not `min(2, 500) = 2`: truncation is measured in
UTF-16 code units of the decoded string, not in bytes. -/
theorem C2_counterexample :
    ((interceptDataEvent false (jstr "api.anthropic.com") [] latin1PostChunk).2.1.map
      (fun e => e.bodyPreview.map List.length)) = [some 1] ∧ (1 : Nat) ≠ min 2 500 := by
  exact ⟨rfl, by decide⟩

/-- C2 (amended): with `S` the length in UTF-16 code units of the UTF-8
decoded body, `bodyPreview` equals the decoded string (length `S`) when
`S ≤ 500` and has length 503 ending in `"..."` when `S > 500`; `S` equals
the byte length `L` exactly on ASCII bodies. -/
theorem C2_body_preview_code_units (body : List Nat) :
    ((bufToStr body).length ≤ 500 → jsBodyPreview body = bufToStr body) ∧
    (500 < (bufToStr body).length →
      (jsBodyPreview body).length = 503 ∧ (jsBodyPreview body).drop 500 = jstr "...") ∧
    ((∀ x ∈ body, x ≤ 127) → (bufToStr body).length = body.length) := by
  refine ⟨?_, ?_, ?_⟩
  · intro h
    unfold jsBodyPreview
    rw [if_neg (by omega)]
  · intro h
    unfold jsBodyPreview
    dsimp only
    rw [if_pos h]
    constructor
    · rw [List.length_append, List.length_take]
      have h3 : (jstr "...").length = 3 := rfl
      omega
    · have htk : (List.take 500 (bufToStr body)).length = 500 := by
        rw [List.length_take]
        omega
      exact List.drop_left' htk
  · intro h
    rw [bufToStr_ascii body h]

/-- C2 witness: the amended statement applied at an ASCII body under the
500-unit threshold and at a 501-byte ASCII body over it. -/
theorem C2_witness :
    jsBodyPreview (jstr "hello") = bufToStr (jstr "hello") ∧
    (jsBodyPreview (List.replicate 501 97)).length = 503 := by
  refine ⟨(C2_body_preview_code_units (jstr "hello")).1 (by decide),
    ((C2_body_preview_code_units (List.replicate 501 97)).2.1 (by decide)).1⟩

/-! ## Claim C3 -/

/-- C3 counterexample: two pipelined `Content-Length:0` requests arriving in
one TLS read produce ONE record (path `/a`), not two — the sniffer does not
rescan the remaining buffer within the same `'data'` event. -/
theorem C3_counterexample :
    ((interceptRun false (jstr "api.anthropic.com") [] [pipelinedChunk]).1.map
      (fun e => e.path)) = [jstr "/a"] ∧
    (interceptRun false (jstr "api.anthropic.com") [] [pipelinedChunk]).1.length ≠ 2 := by
  exact ⟨rfl, by decide⟩

/-- C3 (amended): after a complete request is emitted its bytes are removed
from the buffer, but scanning resumes only at the next `'data'` event: each
event emits at most one record.  Two back-to-back `Content-Length:0`
requests in a single TLS read therefore yield only the first record in that
event; the second is emitted — in wire order — once a further read arrives. -/
theorem C3_one_record_per_data_event :
    (∀ v hn buf chunk, (interceptDataEvent v hn buf chunk).2.1.length ≤ 1) ∧
    ((interceptRun false (jstr "api.anthropic.com") [] [pipelinedChunk, thirdReqChunk]).1.map
      (fun e => e.path)) = [jstr "/a", jstr "/b"] := by
  exact ⟨interceptDataEvent_entries_le_one, rfl⟩

/-! ## Claim C4 -/

/-- C4 counterexample: an origin-form request (`/p`) whose composed target
`http://a b/p` fails URL parsing is answered `400 Bad Request` — but the
`RequestLogEntry` has already been emitted (proxy.ts logs at line 76,
before parsing at line 80), so the emitted-record list is not empty. -/
theorem C4_counterexample :
    (handleRequestEnd spaceFreeUrlOk [jstr "anthropic"] false []
        (some (jstr "GET")) (some (jstr "/p")) (some (jstr "a b")) []).2
      = PlainAction.respond400 ∧
    (handleRequestEnd spaceFreeUrlOk [jstr "anthropic"] false []
        (some (jstr "GET")) (some (jstr "/p")) (some (jstr "a b")) []).1 ≠ [] := by
  exact ⟨rfl, by decide⟩

/-- C4 (amended): when the request-target is not absolute-form and the
composed `http://<Host><target>` fails to parse, the forwarder responds
`400 Bad Request` and closes — but exactly one `RequestRecord` has already
been emitted for the request (no separate parse-error log exists). -/
theorem C4_bad_url_responds_400_but_logs (parseOk : JSStr → Bool)
    (watchDomains : List JSStr) (verbose : Bool)
    (reqHeaders : List (JSStr × JSStr)) (methodOpt urlOpt hostOpt : Option JSStr)
    (body : List Nat)
    (h1 : listStartsWith (jstr "http://") (jsOrStr urlOpt (jstr "/")) = false)
    (h2 : listStartsWith (jstr "https://") (jsOrStr urlOpt (jstr "/")) = false)
    (h3 : parseOk (jstr "http://" ++ jsOrStr hostOpt (jstr "unknown")
            ++ jsOrStr urlOpt (jstr "/")) = false) :
    (handleRequestEnd parseOk watchDomains verbose reqHeaders
        methodOpt urlOpt hostOpt body).2 = PlainAction.respond400 ∧
    (handleRequestEnd parseOk watchDomains verbose reqHeaders
        methodOpt urlOpt hostOpt body).1.length = 1 := by
  unfold handleRequestEnd
  dsimp only
  rw [h1, h2, h3]
  simp

/-- C4 witness: the amended statement applied at the concrete failing
request `GET /p` with `Host: x y`. -/
theorem C4_witness :
    (handleRequestEnd spaceFreeUrlOk [] false []
        (some (jstr "GET")) (some (jstr "/p")) (some (jstr "x y")) []).2
      = PlainAction.respond400 ∧
    (handleRequestEnd spaceFreeUrlOk [] false []
        (some (jstr "GET")) (some (jstr "/p")) (some (jstr "x y")) []).1.length = 1 := by
  exact C4_bad_url_responds_400_but_logs spaceFreeUrlOk [] false []
    (some (jstr "GET")) (some (jstr "/p")) (some (jstr "x y")) [] rfl rfl rfl

/-! ## Claim C5 -/

/-- C5 counterexample: a plain-HTTP request with header
`Host: Example.test:8080` is emitted with `host = "Example.test:8080"` —
port kept, case kept — not `"example.test"`. -/
theorem C5_counterexample :
    ((handleRequestEnd (fun _ => true) defaultWatchDomains false []
        (some (jstr "GET")) (some (jstr "/x")) (some (jstr "Example.test:8080")) []).1.map
      (fun e => e.host)) = [jstr "Example.test:8080"] ∧
    jstr "Example.test:8080" ≠ jstr "example.test" := by
  exact ⟨rfl, by decide⟩

/-- C5 (amended): the plain forwarder stores the raw `Host` header value
verbatim (no lowercasing, no port stripping; `"unknown"` when absent or
empty), and the CONNECT handler stores the text before the first `':'` of
the CONNECT target, case preserved. -/
theorem C5_host_field_verbatim :
    (∀ (parseOk : JSStr → Bool) (watchDomains : List JSStr) (verbose : Bool)
        (reqHeaders : List (JSStr × JSStr)) (methodOpt urlOpt : Option JSStr)
        (body : List Nat) (s : JSStr), s ≠ [] →
      ((handleRequestEnd parseOk watchDomains verbose reqHeaders
          methodOpt urlOpt (some s) body).1.map (fun e => e.host)) = [s]) ∧
    (∀ (watchDomains : List JSStr) (h r : JSStr), (58 : Nat) ∉ h →
      (connectEntry watchDomains (some (h ++ 58 :: r))).host = h) := by
  constructor
  · intro parseOk watchDomains verbose reqHeaders methodOpt urlOpt body s hs
    have hse : s.isEmpty = false := by
      cases s with
      | nil => exact absurd rfl hs
      | cons a t => rfl
    unfold handleRequestEnd
    simp [jsOrStr, hse]
  · intro watchDomains h r hh
    unfold connectEntry
    dsimp only
    exact splitOnSeq_colon_head h r hh

/-- C5 witness: the amended statement applied at `Host: Host.Test:99` and at
CONNECT target `Api.Test:443`. -/
theorem C5_witness :
    ((handleRequestEnd (fun _ => true) [] false [] none none
        (some (jstr "Host.Test:99")) []).1.map (fun e => e.host)) = [jstr "Host.Test:99"] ∧
    (connectEntry [] (some (jstr "Api.Test:443"))).host = jstr "Api.Test" := by
  constructor
  · exact C5_host_field_verbatim.1 (fun _ => true) [] false [] none none []
      (jstr "Host.Test:99") (by decide)
  · exact C5_host_field_verbatim.2 [] (jstr "Api.Test") (jstr "443") (by decide)

/-! ## Claim C6 -/

/-- C6: under a consistent CA state (the held private key is the counterpart
of the root certificate's public key, as after `generateCA`) and a cache
whose entries satisfy the leaf contract, `getCertificateForHost` returns a
certificate with subject CN and DNS SAN equal to the hostname, `cA=false`,
extended key usage `serverAuth`, issuer equal to the root subject, and a
signature verifying against the root certificate — and the updated cache
satisfies the contract again. -/
theorem C6_leaf_certificate_fields (st : CAState) (cache : List (String × ForgeCert))
    (keys : KeyPair) (now : Nat) (hostname : String)
    (hca : st.caCert.publicKey = st.caKey)
    (hcache : ∀ p ∈ cache, leafRespects st p.1 p.2) :
    leafRespects st hostname (getCertificateForHost st cache keys now hostname).1 ∧
    ∀ p ∈ (getCertificateForHost st cache keys now hostname).2,
      leafRespects st p.1 p.2 := by
  unfold getCertificateForHost
  cases hl : List.lookup hostname cache with
  | some cached =>
    dsimp only
    exact ⟨hcache (hostname, cached) (lookup_mem hl), hcache⟩
  | none =>
    dsimp only
    have hleaf : leafRespects st hostname (generateHostCertificate st keys now hostname) := by
      unfold leafRespects generateHostCertificate certVerifies attrValue
      refine ⟨rfl, by simp, rfl, rfl, rfl, ?_⟩
      dsimp only
      rw [hca]
      simp
    refine ⟨hleaf, ?_⟩
    intro p hp
    rcases List.mem_cons.mp hp with hp1 | hp2
    · rw [hp1]
      exact hleaf
    · exact hcache p hp2

/-- C6 witness: the contract holds for the first leaf minted from a freshly
generated CA with an empty cache. -/
theorem C6_witness :
    leafRespects (generateCAState 0) "api.anthropic.com"
      (getCertificateForHost (generateCAState 0) [] (rsaGenerateKeyPair 1) 5
        "api.anthropic.com").1 := by
  exact (C6_leaf_certificate_fields (generateCAState 0) [] (rsaGenerateKeyPair 1) 5
    "api.anthropic.com" rfl (by simp)).1

/-! ## Claim C7 -/

/-- C7: when both CA files exist in `cert_dir`, start-up takes the load
branch: the file system is returned unchanged (no write touches either
file, so the on-disk bytes of `roo-sniffer-ca.pem` are identical before and
after restart), and when the files parse, the in-memory CA is exactly their
parsed contents. -/
theorem C7_existing_ca_not_rewritten (fresh : CAState) (fs : FS) (certDir : String)
    (h1 : fsExists fs (certDir ++ "/roo-sniffer-ca.pem") = true)
    (h2 : fsExists fs (certDir ++ "/roo-sniffer-ca-key.pem") = true) :
    (loadOrCreateCA fresh fs certDir).2 = fs ∧
    (∀ c k, fsRead fs (certDir ++ "/roo-sniffer-ca.pem") = some (FileData.pemCert c) →
      fsRead fs (certDir ++ "/roo-sniffer-ca-key.pem") = some (FileData.pemKey k) →
      (loadOrCreateCA fresh fs certDir).1 = some ⟨c, k⟩) := by
  unfold loadOrCreateCA
  dsimp only
  rw [h1, h2, if_pos (show (true && true) = true from rfl)]
  constructor
  · (repeat' split) <;> rfl
  · intro c k hc hk
    rw [hc, hk]
    rfl

/-- C7 witness: restart over an existing `cert_dir` leaves the file system
untouched and loads the stored CA. -/
theorem C7_witness :
    (loadOrCreateCA (generateCAState 1) c7TestFS "d").2 = c7TestFS ∧
    (loadOrCreateCA (generateCAState 1) c7TestFS "d").1
      = some ⟨(generateCAState 0).caCert, 0⟩ := by
  have h := C7_existing_ca_not_rewritten (generateCAState 1) c7TestFS "d"
    (by decide) (by decide)
  exact ⟨h.1, h.2 (generateCAState 0).caCert 0 (by decide) (by decide)⟩

/-! ## Claim C8 -/

/-- C8 counterexample: the complete request `GET\r\n\r\n` has a request line
with one space-separated token (fewer than 3), yet the record is logged with
method `"GET"`, not `"UNKNOWN"` (`requestLine[0] || 'UNKNOWN'` falls back
only when the first token is the empty string). -/
theorem C8_counterexample :
    ((interceptDataEvent false (jstr "api.anthropic.com") []
        (jstr "GET\r\n\r\n")).2.1.map (fun e => (e.method, e.path)))
      = [(jstr "GET", jstr "/")] ∧
    (splitOnSeq [32] (jstr "GET")).length < 3 ∧
    jstr "GET" ≠ jstr "UNKNOWN" := by
  refine ⟨rfl, by decide, by decide⟩

/-- C8 (amended): a malformed request line is still logged, but `"UNKNOWN"`
appears only when the first space-separated token is empty: for every
complete request whose header block is empty (request line the empty
string — zero tokens), one record is emitted with method `"UNKNOWN"` and
path `"/"`. -/
theorem C8_unknown_method_on_empty_request_line (v : Bool) (hostname : JSStr)
    (rest : List Nat) :
    ((interceptDataEvent v hostname [] ([13, 10, 13, 10] ++ rest)).2.1.map
      (fun e => (e.method, e.path, e.watched))) = [(jstr "UNKNOWN", jstr "/", true)] := by
  unfold interceptDataEvent
  dsimp only
  rw [List.nil_append]
  rw [bufToStr_ascii_append [13, 10, 13, 10] rest (by decide)]
  have hidx : indexOfSeq ([13, 10, 13, 10] ++ bufToStr rest) (jstr "\x0d\n\x0d\n")
      = some 0 := by
    rw [show ([13, 10, 13, 10] : JSStr) ++ bufToStr rest
        = 13 :: ([10, 13, 10] ++ bufToStr rest) from rfl]
    rw [indexOfSeq_cons]
    rw [if_pos (show listStartsWith (jstr "\x0d\n\x0d\n")
        (13 :: ([10, 13, 10] ++ bufToStr rest)) = true
      from listStartsWith_append (jstr "\x0d\n\x0d\n") (bufToStr rest))]
  rw [hidx]
  dsimp only
  rw [List.take_zero]
  simp only [show splitOnSeq [13, 10] ([] : JSStr) = [[]] from rfl]
  rw [if_pos (show 0 < ([[]] : List JSStr).length from by norm_num)]
  simp only [List.headD_cons, show splitOnSeq [32] ([] : JSStr) = [[]] from rfl,
    List.tail_cons, List.foldl_nil]
  simp only [show assocGet [] (jstr "content-length") = none from rfl]
  simp only [show jsOrStr none (jstr "0") = jstr "0" from rfl]
  rw [show jsParseInt (jstr "0") = some 0 from rfl]
  dsimp only
  split
  · simp [jsOrStr]
  · rename_i hcond
    exfalso
    apply hcond
    simp only [List.length_append, List.length_cons, List.length_nil]
    push_cast
    omega

/-! ## Claim C9 -/

/-- C9: the MITM path ignores the `head` bytes entirely (they are neither
parsed nor forwarded: the upstream sees exactly the TLS-read chunks), while
the opaque tunnel writes `head` to the upstream before splicing — so the
two paths write the same upstream bytes exactly when `head` is empty. -/
theorem C9_head_dropped_in_mitm (v : Bool) (hn : JSStr) (head : List Nat)
    (chunks : List (List Nat)) :
    interceptRun v hn head chunks = interceptRun v hn [] chunks ∧
    (interceptRun v hn head chunks).2 = chunks.flatten ∧
    tunnelUpstreamBytes head chunks = head ++ chunks.flatten ∧
    (tunnelUpstreamBytes head chunks = (interceptRun v hn head chunks).2 ↔ head = []) := by
  have hup : (interceptRun v hn head chunks).2 = chunks.flatten := by
    unfold interceptRun
    dsimp only
    rw [interceptRun_upstream_aux]
    simp
  refine ⟨rfl, hup, rfl, ?_⟩
  rw [hup]
  unfold tunnelUpstreamBytes
  constructor
  · intro h
    have hl := congrArg List.length h
    rw [List.length_append] at hl
    have : head.length = 0 := by omega
    exact List.eq_nil_of_length_eq_zero this
  · rintro rfl
    simp

/-! ## Claim C10 -/

/-- C10 counterexample: a record whose `bodyPreview` is the literal string
`"<binary>"` is emitted when the request body consists of exactly those
ASCII bytes, refuting "no emitted record ever has bodyPreview `<binary>`". -/
theorem C10_counterexample :
    ((interceptDataEvent false (jstr "api.anthropic.com") [] binaryBodyChunk).2.1.map
      (fun e => e.bodyPreview)) = [some (jstr "<binary>")] := by
  rfl

/-- C10 (amended): decoding with `toString('utf8')` is total (invalid bytes
become replacement characters), so the catch-branch marker can never be
produced by a decode failure; nevertheless `bodyPreview` equals the literal
string `"<binary>"` exactly when the decoded body is that string. -/
theorem C10_binary_preview_iff_literal_body (body : List Nat) :
    jsBodyPreview body = jstr "<binary>" ↔ bufToStr body = jstr "<binary>" := by
  unfold jsBodyPreview
  dsimp only
  split
  case isTrue h =>
    constructor
    · intro hc
      have hlen := congrArg List.length hc
      rw [List.length_append, List.length_take] at hlen
      have h3 : (jstr "...").length = 3 := rfl
      have h8 : (jstr "<binary>").length = 8 := rfl
      omega
    · intro hc
      have hlen := congrArg List.length hc
      have h8 : (jstr "<binary>").length = 8 := rfl
      omega
  case isFalse h => exact Iff.rfl
